import Mathlib

/-!
# ElectronRunner (`app-webpack/lib/electron/index.js`)

A shallow embedding of the development-time Electron runner: the two watch
callbacks created by `run`, the debounced `__restartElectron`, `stop`,
`__stopElectron`, `__startElectron` and the exit callback handed to `spawn`.

The runner is a record of the fields of `this` together with the state of its
collaborators (watch subscriptions, spawned processes, the debounce timer and a
logical clock in milliseconds).  Every method is a pure function on that record;
asynchronous stimuli (a watch cycle finishing, time passing, a child exiting)
are events of a step function.

Collaborators that are not part of the sources are modelled as follows.
* `webpack(...).watch`: a subscription calls its callback once per build cycle
  and delivers nothing after `close()`.
* `debounce` (lodash): a single pending timer holding its due time and the
  arguments of the last call; `cancel()` drops it.
* `spawn` (helpers/spawn.js): returns a process id that is non-zero and new, and
  calls the exit callback once when the process ends.
* `process.kill`: recorded as an effect on the process it names.
* `fatal` (helpers/logger.js): recorded as an effect; it ends the run.

The last part embeds `flattenObject` of `app-webpack/lib/webpack/ssr/webserver.js`,
which turns the nested `build.env` object into the flat map given to the define
plugin.
-/

namespace ElectronRunner

/-! ## Build outcomes and the closure of one `run` call -/

/-- The two compilers created by `run`. -/
inductive ArtifactKind
  | main
  | preload
  deriving DecidableEq, Repr

/-- What one watch cycle hands to the callback `(err, stats)`:
`err` is set, or `stats.hasErrors()` is true, or neither. -/
inductive BuildOutcome
  | err
  | statsErrors
  | success
  deriving DecidableEq, Repr

/-- The other artifact. -/
def ArtifactKind.other : ArtifactKind → ArtifactKind
  | .main => .preload
  | .preload => .main

/-- The variables captured by the two watch callbacks of one `run` call:
`argv._`, the locals `mainReady` / `preloadReady`, and whether the `resolve`
of `resolveMain` / `resolvePreload` has been called. -/
structure RunClosure where
  argv : List String
  mainReady : Bool
  preloadReady : Bool
  mainResolved : Bool
  preloadResolved : Bool
  deriving DecidableEq, Repr

/-- State of the closure when `run` returns: `let mainReady = false`,
`let preloadReady = false`, both promises pending. -/
def RunClosure.fresh (argv : List String) : RunClosure :=
  { argv := argv, mainReady := false, preloadReady := false,
    mainResolved := false, preloadResolved := false }

/-- The callback given to `mainCompiler.watch`.  The second component is
`some params` when the callback calls `this.__restartElectron(params)`. -/
def mainCallback (o : BuildOutcome) (c : RunClosure) : RunClosure × Option (List String) :=
  match o with
  | .err => (c, none)
  | .statsErrors => (c, none)
  | .success =>
    let c1 := { c with mainReady := true }
    let req := if c1.preloadReady = true then some c1.argv else none
    ({ c1 with mainResolved := true }, req)

/-- The callback given to `preloadCompiler.watch`. -/
def preloadCallback (o : BuildOutcome) (c : RunClosure) : RunClosure × Option (List String) :=
  match o with
  | .err => (c, none)
  | .statsErrors => (c, none)
  | .success =>
    let c1 := { c with preloadReady := true }
    let req := if c1.mainReady = true then some c1.argv else none
    ({ c1 with preloadResolved := true }, req)

/-- The watch callback of the given artifact. -/
def watchCallback : ArtifactKind → BuildOutcome → RunClosure → RunClosure × Option (List String)
  | .main => mainCallback
  | .preload => preloadCallback

/-- `Promise.all([ resolveMain, resolvePreload ])` is resolved. -/
def RunClosure.promiseResolved (c : RunClosure) : Bool :=
  c.mainResolved && c.preloadResolved

/-- Both readiness flags are set. -/
def RunClosure.bothReady (c : RunClosure) : Bool :=
  c.mainReady && c.preloadReady

/-- Closure after a sequence of watch cycles, delivered in order. -/
def closureAfter (c : RunClosure) : List (ArtifactKind × BuildOutcome) → RunClosure
  | [] => c
  | (k, o) :: rest => closureAfter (watchCallback k o c).1 rest

/-- For each delivered outcome, the restart request it raised (if any). -/
def requestsRaised (c : RunClosure) :
    List (ArtifactKind × BuildOutcome) → List (Option (List String))
  | [] => []
  | (k, o) :: rest => (watchCallback k o c).2 :: requestsRaised (watchCallback k o c).1 rest

/-- Number of calls of `__restartElectron` made while the outcomes are delivered. -/
def requestCount (c : RunClosure) (os : List (ArtifactKind × BuildOutcome)) : Nat :=
  ((requestsRaised c os).filter Option.isSome).length

/-! ## The runner and its collaborators -/

/-- A watch subscription returned by `compiler.watch`. -/
structure Watcher where
  id : Nat
  run : Nat
  kind : ArtifactKind
  closed : Bool
  deriving DecidableEq, Repr

/-- A child process created by `spawn`: `killed` records that `process.kill`
was called on it by `__stopElectron`, `exited` that its exit callback ran. -/
structure Proc where
  pid : Nat
  args : List String
  killed : Bool
  exited : Bool
  deriving DecidableEq, Repr

/-- The two messages passed to `fatal` by the exit callback. -/
inductive FatalMsg
  | endedWithErrorCode (code : Nat)
  | wasKilled
  deriving DecidableEq, Repr

/-- Observable effects, recorded with the time at which they happen.
`spawn tracked pid args` also records the value of `this.pid` on entry to
`__startElectron`; `fatal pid msg` records whose exit callback called `fatal`. -/
inductive Effect
  | restartRequested (params : List String)
  | kill (pid : Nat)
  | spawn (tracked : Nat) (pid : Nat) (args : List String)
  | fatal (pid : Nat) (msg : FatalMsg)
  | close (watcher : Nat)
  deriving DecidableEq, Repr

/-- The fields of `this` (`pid`, `url`, `mainWatcher`, `preloadWatcher`,
`__justKilledIt`), the pending debounce timer (due time and last arguments),
the clock, and the collaborators' state. -/
structure Runner where
  pid : Nat
  url : Option String
  mainWatcher : Option Nat
  preloadWatcher : Option Nat
  justKilledIt : Bool
  timer : Option (Nat × List String)
  now : Nat
  closures : List RunClosure
  watchers : List Watcher
  procs : List Proc
  trace : List (Nat × Effect)
  halted : Bool
  deriving DecidableEq, Repr

/-- State after the constructor: `pid = 0`, both watchers `null`, `url` and
`__justKilledIt` undefined, no timer pending. -/
def Runner.init : Runner :=
  { pid := 0, url := none, mainWatcher := none, preloadWatcher := none,
    justKilledIt := false, timer := none, now := 0, closures := [],
    watchers := [], procs := [], trace := [], halted := false }

/-- Record an effect at the current time. -/
def Runner.emit (s : Runner) (e : Effect) : Runner :=
  { s with trace := s.trace ++ [(s.now, e)] }

/-- The quiet period given to `debounce`. -/
def wait : Nat := 1000

/-- Modelled from the spec: `debounce` (lodash, not part of the sources) with
its default options, as section 4.3 describes it: a call cancels any pending
timer and starts a new one for the quiet period, remembering the arguments of
that call. -/
def __restartElectron (params : List String) (s : Runner) : Runner :=
  { s.emit (.restartRequested params) with timer := some (s.now + wait, params) }

/-- Modelled from the spec: `__restartElectron.cancel()` drops the pending
timer with no further action. -/
def cancel (s : Runner) : Runner :=
  { s with timer := none }

/-- Stands for `appPaths.resolve.app('.quasar/electron/electron-main.cjs')`. -/
def electronMain : String := ".quasar/electron/electron-main.cjs"

/-- `__stopElectron`: nothing when `pid` is 0; otherwise `process.kill(this.pid)`,
`this.pid = 0`, `this.__justKilledIt = true`. -/
def __stopElectron (s : Runner) : Runner :=
  if s.pid = 0 then s
  else
    { s.emit (.kill s.pid) with
      procs := s.procs.map (fun p => if p.pid = s.pid then { p with killed := true } else p)
      pid := 0
      justKilledIt := true }

/-- `__startElectron`: `this.pid = spawn(...)`.  `spawn` (helpers/spawn.js) is
taken to return a process id that is non-zero and was not handed out before. -/
def __startElectron (extraParams : List String) (s : Runner) : Runner :=
  let pid := s.procs.length + 1
  let args := "--inspect=5858" :: electronMain :: extraParams
  { s.emit (.spawn s.pid pid args) with
    procs := s.procs ++ [{ pid := pid, args := args, killed := false, exited := false }]
    pid := pid }

/-- The function wrapped by `debounce` in the constructor. -/
def restartAction (params : List String) (s : Runner) : Runner :=
  __startElectron params (__stopElectron s)

/-- Modelled from the spec: `fatal` (helpers/logger.js) reports the message and
ends the run; nothing is processed afterwards. -/
def fatal (pid : Nat) (msg : FatalMsg) (s : Runner) : Runner :=
  { s.emit (.fatal pid msg) with halted := true }

/-- The exit callback passed to `spawn`, called with the exit code (`none`
stands for `null`, a process ended by a signal). -/
def exitCallback (pid : Nat) (code : Option Nat) (s : Runner) : Runner :=
  if s.justKilledIt = true then { s with justKilledIt := false }
  else
    match code with
    | some (n + 1) => fatal pid (.endedWithErrorCode (n + 1)) s
    | _ => fatal pid .wasKilled s

/-- `w.close()` for a watcher slot that is not `null`. -/
def closeWatcher (w : Option Nat) (s : Runner) : Runner :=
  match w with
  | none => s
  | some i =>
    { s.emit (.close i) with
      watchers := s.watchers.map (fun x => if x.id = i then { x with closed := true } else x) }

/-- `stop()`. -/
def stop (s : Runner) : Runner :=
  let s1 := cancel s
  let s2 := __stopElectron s1
  let s3 := closeWatcher s2.mainWatcher s2
  let s4 := closeWatcher s3.preloadWatcher s3
  { s4 with mainWatcher := none, preloadWatcher := none }

/-- `run(quasarConfFile, argv)` up to the point where it returns its promise;
`url` is `quasarConf.build.APP_URL` and `argv` is `argv._`. -/
def run (url : String) (argv : List String) (s : Runner) : Runner :=
  if s.url = some url then s
  else
    let s1 := if s.pid ≠ 0 then stop s else s
    let r := s1.closures.length
    let w := s1.watchers.length
    { s1 with
      url := some url
      closures := s1.closures ++ [RunClosure.fresh argv]
      watchers := s1.watchers ++
        [{ id := w, run := r, kind := .main, closed := false },
         { id := w + 1, run := r, kind := .preload, closed := false }]
      mainWatcher := some w
      preloadWatcher := some (w + 1) }

/-- Replace the `r`-th closure. -/
def setClosure : Nat → RunClosure → List RunClosure → List RunClosure
  | _, _, [] => []
  | 0, c, _ :: cs => c :: cs
  | r + 1, c, x :: cs => x :: setClosure r c cs

/-- A watch cycle of subscription `w` ends with outcome `o`: its callback runs.
A closed subscription delivers nothing. -/
def onOutcome (w : Nat) (o : BuildOutcome) (s : Runner) : Runner :=
  match s.watchers.find? (fun x => x.id = w) with
  | none => s
  | some x =>
    if x.closed then s
    else
      match s.closures.get? x.run with
      | none => s
      | some c =>
        let res := watchCallback x.kind o c
        let s1 := { s with closures := setClosure x.run res.1 s.closures }
        match res.2 with
        | none => s1
        | some params => __restartElectron params s1

/-- The operating system reports that process `pid` ended: its exit callback
runs, once. -/
def onExit (pid : Nat) (code : Option Nat) (s : Runner) : Runner :=
  if s.procs.any (fun p => p.pid = pid ∧ p.exited = false) then
    exitCallback pid code
      { s with procs := s.procs.map (fun p => if p.pid = pid then { p with exited := true } else p) }
  else s

/-- Modelled from the spec: the timer of `debounce` (section 4.3: when the timer
elapses without being superseded, the wrapped function is invoked once with the
latest arguments).  Time advances by `d` ms; a pending timer that falls due in
that interval fires at its due time and runs `restartAction` with the
remembered arguments.  In every state reached from `Runner.init` a pending
timer is due later than `now`. -/
def elapse (d : Nat) (s : Runner) : Runner :=
  match s.timer with
  | none => { s with now := s.now + d }
  | some (due, params) =>
    if due ≤ s.now + d then
      { restartAction params { s with now := due, timer := none } with now := s.now + d }
    else { s with now := s.now + d }

/-- What can happen to a runner. -/
inductive Event
  | run (url : String) (argv : List String)
  | stop
  | outcome (watcher : Nat) (o : BuildOutcome)
  | elapse (ms : Nat)
  | exit (pid : Nat) (code : Option Nat)
  deriving DecidableEq, Repr

/-- One event; a run ended by `fatal` processes nothing. -/
def step (s : Runner) (e : Event) : Runner :=
  if s.halted then s
  else
    match e with
    | .run url argv => run url argv s
    | .stop => stop s
    | .outcome w o => onOutcome w o s
    | .elapse d => elapse d s
    | .exit pid code => onExit pid code s

/-- A sequence of events, in order. -/
def steps (s : Runner) (es : List Event) : Runner :=
  es.foldl step s

/-- The processes spawned so far: time and arguments of each `spawn`. -/
def spawns (s : Runner) : List (Nat × List String) :=
  s.trace.filterMap (fun x =>
    match x.2 with
    | .spawn _ _ args => some (x.1, args)
    | _ => none)

/-- Number of spawned processes that `__stopElectron` has not killed. -/
def liveCount (s : Runner) : Nat :=
  s.procs.countP (fun p => p.killed = false)

/-- A burst of calls of `__restartElectron` following a first one: each entry is
the time elapsed since the previous call and the parameters of the call. -/
def requestBurst (s : Runner) : List (Nat × List String) → Runner
  | [] => s
  | (gap, params) :: rest => requestBurst (__restartElectron params (elapse gap s)) rest

/-- Events other than a new `run` call or a watch cycle: time passing, a child
exiting, `stop()`. -/
def Event.quiet : Event → Bool
  | .run _ _ => false
  | .outcome _ _ => false
  | _ => true

/-- The process slot: a spawned process that `__stopElectron` has not killed is
the one `this.pid` tracks, process ids are non-zero, at most one process is not
yet killed, and every `spawn` was made with `this.pid = 0`. -/
def SlotInv (s : Runner) : Prop :=
  (∀ p ∈ s.procs, p.killed = false → p.pid = s.pid) ∧
  (∀ p ∈ s.procs, 0 < p.pid) ∧
  liveCount s ≤ 1 ∧
  (∀ x ∈ s.trace, ∀ tr pid args, x.2 = Effect.spawn tr pid args → tr = 0)

/-- The timed scenario up to 1050 ms: a fresh `run`, both first builds succeed
at 0 ms (in either order), 1000 ms pass, then 50 ms more. -/
def scenarioStart (mainFirst : Bool) (url : String) (argv : List String) : List Event :=
  [.run url argv,
   .outcome (if mainFirst then 0 else 1) .success,
   .outcome (if mainFirst then 1 else 0) .success,
   .elapse 1000, .elapse 50]

end ElectronRunner

/-! ## `flattenObject` (`app-webpack/lib/webpack/ssr/webserver.js`) -/

namespace Webserver

mutual
/-- A value stored under a key: `leaf` for a value with `Object(x) !== x`
(null, a boolean, a number, a string), `obj` for an object. -/
inductive JsValue (α : Type) where
  | leaf (x : α)
  | obj (o : JsObj α)
/-- An object as the list of its own enumerable keys, in the order of
`Object.keys`, each with its value.  An array is the object whose keys are its
indices. -/
inductive JsObj (α : Type) where
  | nil
  | cons (k : String) (v : JsValue α) (rest : JsObj α)
end

/-- `Object.keys(obj)`. -/
def JsObj.keys {α : Type} : JsObj α → List String
  | .nil => []
  | .cons k _ rest => k :: rest.keys

/-- `acc[ k ] = v` on a map kept in insertion order: an existing key keeps its
place and gets the new value, a new key goes last. -/
def setKey {β : Type} : List (String × β) → String → β → List (String × β)
  | [], k, v => [(k, v)]
  | e :: rest, k, v => if e.1 = k then (k, v) :: rest else e :: setKey rest k v

/-- `Object.assign(target, source)`. -/
def objectAssign {β : Type} (target source : List (String × β)) : List (String × β) :=
  source.foldl (fun acc e => setKey acc e.1 e.2) target

mutual
/-- One step of the reducer of `flattenObject`, for the value `obj[ k ]` and the
key `pre + k`. -/
def flattenValue {α β : Type} (stringify : α → β) :
    JsValue α → String → List (String × β) → List (String × β)
  | .leaf x, key, acc => setKey acc key (stringify x)
  | .obj o, key, acc => objectAssign acc (flattenEntries stringify o key [])
/-- The `reduce` of `flattenObject` over the keys that remain, with accumulator
`acc`; `pfx` is the parameter `prefix`. -/
def flattenEntries {α β : Type} (stringify : α → β) :
    JsObj α → String → List (String × β) → List (String × β)
  | .nil, _, acc => acc
  | .cons k v rest, pfx, acc =>
    let pre := if pfx.length ≠ 0 then pfx ++ "." else ""
    flattenEntries stringify rest pfx (flattenValue stringify v (pre ++ k) acc)
end

/-- `flattenObject(obj, prefix = 'process.env')`; `stringify` stands for
`JSON.stringify`. -/
def flattenObject {α β : Type} (stringify : α → β) (obj : JsObj α)
    (pfx : String := "process.env") : List (String × β) :=
  flattenEntries stringify obj pfx []

mutual
/-- The leaves below a value, each with the path of keys leading to it. -/
def leavesValue {α : Type} : JsValue α → List (List String × α)
  | .leaf x => [([], x)]
  | .obj o => leavesEntries o
/-- The leaves of an object, each with the path of keys leading to it. -/
def leavesEntries {α : Type} : JsObj α → List (List String × α)
  | .nil => []
  | .cons k v rest => (leavesValue v).map (fun e => (k :: e.1, e.2)) ++ leavesEntries rest
end

mutual
/-- No key at any depth below the value contains a dot. -/
def JsValue.dotFree {α : Type} : JsValue α → Bool
  | .leaf _ => true
  | .obj o => o.dotFree
/-- No key of the object, at any depth, contains a dot. -/
def JsObj.dotFree {α : Type} : JsObj α → Bool
  | .nil => true
  | .cons k v rest => !k.data.contains '.' && v.dotFree && rest.dotFree
end

mutual
/-- Every object below the value lists each of its keys once. -/
def JsValue.distinctKeys {α : Type} : JsValue α → Bool
  | .leaf _ => true
  | .obj o => o.distinctKeys
/-- The object, and every object nested in it, lists each of its keys once, as
the keys of a JavaScript object do. -/
def JsObj.distinctKeys {α : Type} : JsObj α → Bool
  | .nil => true
  | .cons k v rest => !rest.keys.contains k && v.distinctKeys && rest.distinctKeys
end

/-- The key built for a path of keys below the key `q`: each further key is
appended after a dot. -/
def pathKey (q : String) : List String → String
  | [] => q
  | k :: p => pathKey (q ++ "." ++ k) p

/-- The entries for a list of leaves below the key `q`. -/
def keyed {α β : Type} (stringify : α → β) (q : String) (ls : List (List String × α)) :
    List (String × β) :=
  ls.map (fun e => (pathKey q e.1, stringify e.2))

/-- The string `x` is `q`, or `q` followed by a dot and more. -/
def Extends (q x : String) : Prop :=
  ∃ t : List Char, x.data = q.data ++ t ∧ (t = [] ∨ ∃ u, t = '.' :: u)

end Webserver

namespace ElectronRunner

/-! ## Readiness aggregation and the promise of `run` -/

section Closure

open ArtifactKind BuildOutcome

theorem closureAfter_append (c : RunClosure) (xs ys : List (ArtifactKind × BuildOutcome)) :
    closureAfter c (xs ++ ys) = closureAfter (closureAfter c xs) ys := by
  induction xs generalizing c with
  | nil => rfl
  | cons x xs ih =>
    obtain ⟨k, o⟩ := x
    exact ih (watchCallback k o c).1

theorem requestsRaised_append (c : RunClosure) (xs ys : List (ArtifactKind × BuildOutcome)) :
    requestsRaised c (xs ++ ys) =
      requestsRaised c xs ++ requestsRaised (closureAfter c xs) ys := by
  induction xs generalizing c with
  | nil => rfl
  | cons x xs ih =>
    obtain ⟨k, o⟩ := x
    show (watchCallback k o c).2 :: requestsRaised (watchCallback k o c).1 (xs ++ ys) = _
    rw [ih]
    rfl

/-- The last outcome of a sequence raises what its callback returns in the
closure left by the outcomes before it. -/
theorem requestsRaised_last (c : RunClosure) (pre : List (ArtifactKind × BuildOutcome))
    (k : ArtifactKind) (o : BuildOutcome) :
    (requestsRaised c (pre ++ [(k, o)])).getLast? =
      some (watchCallback k o (closureAfter c pre)).2 := by
  rw [requestsRaised_append]
  simp [requestsRaised]

/-- Each flag of the closure is set once its artifact has reported a success,
and is never cleared; `argv` is never assigned. -/
theorem closureAfter_fields (c : RunClosure) (os : List (ArtifactKind × BuildOutcome)) :
    (closureAfter c os).argv = c.argv ∧
    (closureAfter c os).mainReady = (c.mainReady || decide ((main, success) ∈ os)) ∧
    (closureAfter c os).preloadReady = (c.preloadReady || decide ((preload, success) ∈ os)) ∧
    (closureAfter c os).mainResolved = (c.mainResolved || decide ((main, success) ∈ os)) ∧
    (closureAfter c os).preloadResolved =
      (c.preloadResolved || decide ((preload, success) ∈ os)) := by
  induction os generalizing c with
  | nil => simp [closureAfter]
  | cons x xs ih =>
    obtain ⟨k, o⟩ := x
    obtain ⟨h1, h2, h3, h4, h5⟩ := ih (watchCallback k o c).1
    simp only [closureAfter, h1, h2, h3, h4, h5]
    cases k <;> cases o <;>
      simp [watchCallback, mainCallback, preloadCallback, Bool.or_assoc]

theorem closureAfter_fresh (argv : List String) (os : List (ArtifactKind × BuildOutcome)) :
    (closureAfter (RunClosure.fresh argv) os).argv = argv ∧
    (closureAfter (RunClosure.fresh argv) os).mainReady = decide ((main, success) ∈ os) ∧
    (closureAfter (RunClosure.fresh argv) os).preloadReady = decide ((preload, success) ∈ os) ∧
    (closureAfter (RunClosure.fresh argv) os).mainResolved = decide ((main, success) ∈ os) ∧
    (closureAfter (RunClosure.fresh argv) os).preloadResolved =
      decide ((preload, success) ∈ os) := by
  simpa [RunClosure.fresh] using closureAfter_fields (RunClosure.fresh argv) os

end Closure

section ClosureClaims

open ArtifactKind BuildOutcome

/-- C1, as stated, fails: with outcomes Main:Success, Preload:Success,
Main:Success the pair is already both ready after the second outcome, and the
third outcome still raises a restart request, so two requests are raised. -/
theorem restart_requested_when_already_ready :
    (closureAfter (RunClosure.fresh []) [(main, success), (preload, success)]).bothReady = true ∧
    requestsRaised (RunClosure.fresh [])
      [(main, success), (preload, success), (main, success)] = [none, some [], some []] ∧
    requestCount (RunClosure.fresh [])
      [(main, success), (preload, success), (main, success)] = 2 := by
  decide

/-- C1 (amended): readiness aggregation is level-triggered.  An outcome raises a
restart request exactly when it is a Success and the other artifact has already
reported a Success since `run`, whether or not both were ready before; the
request carries `argv._`.  For Main:Success, Preload:Success, Main:Success the
second and the third outcome each raise one. -/
theorem restart_request_iff_other_succeeded (argv : List String)
    (pre : List (ArtifactKind × BuildOutcome)) (k : ArtifactKind) (o : BuildOutcome) :
    (requestsRaised (RunClosure.fresh argv) (pre ++ [(k, o)])).getLast? =
      some (if o = success ∧ (k.other, success) ∈ pre then some argv else none) ∧
    requestsRaised (RunClosure.fresh argv)
      [(main, success), (preload, success), (main, success)] =
      [none, some argv, some argv] := by
  refine ⟨?_, by simp [requestsRaised, watchCallback, mainCallback, preloadCallback,
    RunClosure.fresh]⟩
  rw [requestsRaised_last]
  obtain ⟨h1, h2, h3, -, -⟩ := closureAfter_fresh argv pre
  cases k <;> cases o <;>
    simp [watchCallback, mainCallback, preloadCallback, ArtifactKind.other, h1, h2, h3]

/-- C2, as stated, fails: after Main:Success, Preload:Success, Main:Error the
readiness flag of main is still set, and the following Preload:Success raises a
restart request although the most recent outcome of main is an Error. -/
theorem restart_requested_after_error :
    (closureAfter (RunClosure.fresh [])
      [(main, success), (preload, success), (main, err)]).mainReady = true ∧
    requestsRaised (RunClosure.fresh [])
      [(main, success), (preload, success), (main, err), (preload, success)] =
      [none, some [], none, some []] ∧
    requestsRaised (RunClosure.fresh [])
      [(main, success), (preload, success), (main, statsErrors), (preload, success)] =
      [none, some [], none, some []] := by
  decide

/-- C2 (amended): an Error outcome (`err` set or `stats.hasErrors()`) raises no
restart request and leaves the closure, hence both readiness flags, as it was;
and whenever an outcome raises a restart request, that outcome is a Success and
both main and preload have reported a Success at least once since `run`. -/
theorem error_outcome_keeps_readiness (argv : List String)
    (pre : List (ArtifactKind × BuildOutcome)) (k : ArtifactKind) (o : BuildOutcome) :
    (o ≠ success →
      closureAfter (RunClosure.fresh argv) (pre ++ [(k, o)]) =
        closureAfter (RunClosure.fresh argv) pre ∧
      (requestsRaised (RunClosure.fresh argv) (pre ++ [(k, o)])).getLast? = some none) ∧
    (∀ p, (requestsRaised (RunClosure.fresh argv) (pre ++ [(k, o)])).getLast? = some (some p) →
      o = success ∧ (main, success) ∈ pre ++ [(k, o)] ∧ (preload, success) ∈ pre ++ [(k, o)]) := by
  rw [requestsRaised_last, closureAfter_append]
  obtain ⟨-, h2, h3, -, -⟩ := closureAfter_fresh argv pre
  constructor
  · intro ho
    cases k <;> cases o <;>
      simp_all [closureAfter, watchCallback, mainCallback, preloadCallback]
  · intro p hp
    cases k <;> cases o <;>
      simp_all [watchCallback, mainCallback, preloadCallback]

/-- Witness for C2 (amended), both parts at concrete outcomes. -/
theorem error_outcome_keeps_readiness_witness :
    (closureAfter (RunClosure.fresh ["a"]) ([(main, success), (preload, success)] ++ [(main, err)]) =
        closureAfter (RunClosure.fresh ["a"]) [(main, success), (preload, success)] ∧
      (requestsRaised (RunClosure.fresh ["a"])
        ([(main, success), (preload, success)] ++ [(main, err)])).getLast? = some none) ∧
    (success = success ∧
      (main, success) ∈ [(main, success)] ++ [(preload, success)] ∧
      (preload, success) ∈ [(main, success)] ++ [(preload, success)]) :=
  ⟨(error_outcome_keeps_readiness ["a"] [(main, success), (preload, success)] main err).1
      (by decide),
   (error_outcome_keeps_readiness ["a"] [(main, success)] preload success).2 ["a"]
      (by decide)⟩

/-- C8, as stated, fails: when the first cycle of main ends in an Error (either
kind) and the first cycle of preload in a Success, both first outcomes have been
delivered and the promise returned by `run` is still pending. -/
theorem promise_pending_after_first_error :
    (closureAfter (RunClosure.fresh []) [(main, err), (preload, success)]).promiseResolved = false ∧
    (closureAfter (RunClosure.fresh [])
      [(main, statsErrors), (preload, success)]).promiseResolved = false ∧
    (closureAfter (RunClosure.fresh []) [(main, err), (preload, err)]).promiseResolved = false := by
  decide

/-- C8 (amended): the promise returned by `run` is resolved exactly when main and
preload have each reported a Success at least once; an Error outcome does not
settle it.  It depends on the outcomes alone, not on a restart taking place. -/
theorem promise_resolved_iff_both_succeeded (argv : List String)
    (os : List (ArtifactKind × BuildOutcome)) :
    (closureAfter (RunClosure.fresh argv) os).promiseResolved = true ↔
      (main, success) ∈ os ∧ (preload, success) ∈ os := by
  obtain ⟨-, -, -, h4, h5⟩ := closureAfter_fresh argv os
  simp [RunClosure.promiseResolved, h4, h5]

end ClosureClaims

/-! ## The debounce timer -/

section Timer

theorem spawns_emit (s : Runner) (e : Effect) :
    spawns (s.emit e) = spawns s ++
      (match e with
       | .spawn _ _ args => [(s.now, args)]
       | _ => []) := by
  cases e <;> simp [spawns, Runner.emit, List.filterMap_append]

theorem spawns_of_trace_eq {s t : Runner} (h : t.trace = s.trace) : spawns t = spawns s := by
  simp [spawns, h]

theorem spawns_restartElectron (params : List String) (s : Runner) :
    spawns (__restartElectron params s) = spawns s := by
  have h := spawns_emit s (.restartRequested params)
  simpa [__restartElectron, spawns] using h

theorem spawns_stopElectron (s : Runner) : spawns (__stopElectron s) = spawns s := by
  unfold __stopElectron
  split
  · rfl
  · have h := spawns_emit s (.kill s.pid)
    simpa [spawns] using h

theorem spawns_startElectron (params : List String) (s : Runner) :
    spawns (__startElectron params s) =
      spawns s ++ [(s.now, "--inspect=5858" :: electronMain :: params)] := by
  have h := spawns_emit s (.spawn s.pid (s.procs.length + 1)
    ("--inspect=5858" :: electronMain :: params))
  simpa [__startElectron, spawns] using h

theorem now_stopElectron (s : Runner) : (__stopElectron s).now = s.now := by
  unfold __stopElectron
  split <;> simp [Runner.emit]

theorem spawns_restartAction (params : List String) (s : Runner) :
    spawns (restartAction params s) =
      spawns s ++ [(s.now, "--inspect=5858" :: electronMain :: params)] := by
  rw [restartAction, spawns_startElectron, spawns_stopElectron, now_stopElectron]

/-- Before the timer is due, time passing changes the clock only. -/
theorem elapse_before_due (d : Nat) (s : Runner) (due : Nat) (params : List String)
    (ht : s.timer = some (due, params)) (hd : s.now + d < due) :
    elapse d s = { s with now := s.now + d } := by
  unfold elapse
  rw [ht]
  simp only
  rw [if_neg (by omega)]

/-- With no timer pending, time passing changes the clock only. -/
theorem elapse_no_timer (d : Nat) (s : Runner) (ht : s.timer = none) :
    elapse d s = { s with now := s.now + d } := by
  unfold elapse
  rw [ht]

/-- A burst of requests less than the quiet period apart leaves one timer
pending, due one quiet period after the last request with its parameters, and
spawns nothing. -/
theorem requestBurst_pending (rest : List (Nat × List String)) :
    ∀ (s : Runner) (p : List String), s.timer = some (s.now + wait, p) →
      (∀ x ∈ rest, x.1 < wait) →
      (requestBurst s rest).timer =
          some ((requestBurst s rest).now + wait, (rest.map Prod.snd).getLastD p) ∧
        spawns (requestBurst s rest) = spawns s ∧
        (requestBurst s rest).now = s.now + (rest.map Prod.fst).sum := by
  induction rest with
  | nil => intro s p ht _; simp [requestBurst, ht]
  | cons x rest ih =>
    intro s p ht hgap
    obtain ⟨gap, q⟩ := x
    have hg : gap < wait := hgap (gap, q) (List.mem_cons_self _ _)
    have he : elapse gap s = { s with now := s.now + gap } :=
      elapse_before_due gap s _ p ht (by omega)
    have hrest : ∀ y ∈ rest, y.1 < wait := fun y hy => hgap y (List.mem_cons_of_mem _ hy)
    obtain ⟨h1, h2, h3⟩ := ih (__restartElectron q (elapse gap s)) q
      (by simp [__restartElectron, Runner.emit]) hrest
    simp only [requestBurst, List.map_cons, List.getLastD_cons, List.sum_cons]
    refine ⟨h1, ?_, ?_⟩
    · rw [h2, spawns_restartElectron, he]
      exact spawns_of_trace_eq rfl
    · rw [h3, he]
      simp [__restartElectron, Runner.emit, Nat.add_assoc]

end Timer

section TimerClaims

theorem timer_restartAction (params : List String) (s : Runner) :
    (restartAction params s).timer = s.timer := by
  unfold restartAction __startElectron __stopElectron
  split <;> simp [Runner.emit]

/-- C3: after a first call of `__restartElectron` (parameters `p0`) and any
further calls, each less than 1000 ms after the previous one, nothing has been
spawned; once 1000 ms or more have passed since the last call, the wrapped
function (`__stopElectron` then `__startElectron`) has run exactly once, at
1000 ms after the last call, with the parameters of the last call; no timer is
left pending and more time passing spawns nothing further. -/
theorem debounce_coalesces (s : Runner) (p0 : List String)
    (rest : List (Nat × List String)) (D : Nat)
    (hgap : ∀ x ∈ rest, x.1 < 1000) (hD : 1000 ≤ D) :
    spawns (requestBurst (__restartElectron p0 s) rest) = spawns s ∧
    (requestBurst (__restartElectron p0 s) rest).now = s.now + (rest.map Prod.fst).sum ∧
    elapse D (requestBurst (__restartElectron p0 s) rest) =
      { restartAction ((rest.map Prod.snd).getLastD p0)
          { requestBurst (__restartElectron p0 s) rest with
            now := s.now + (rest.map Prod.fst).sum + 1000, timer := none } with
        now := s.now + (rest.map Prod.fst).sum + D } ∧
    spawns (elapse D (requestBurst (__restartElectron p0 s) rest)) =
      spawns s ++ [(s.now + (rest.map Prod.fst).sum + 1000,
        "--inspect=5858" :: electronMain :: (rest.map Prod.snd).getLastD p0)] ∧
    (elapse D (requestBurst (__restartElectron p0 s) rest)).timer = none ∧
    ∀ D2, spawns (elapse D2 (elapse D (requestBurst (__restartElectron p0 s) rest))) =
      spawns (elapse D (requestBurst (__restartElectron p0 s) rest)) := by
  obtain ⟨h1, h2, h3⟩ := requestBurst_pending rest (__restartElectron p0 s) p0
    (by simp [__restartElectron, Runner.emit]) hgap
  rw [spawns_restartElectron] at h2
  have h3' : (requestBurst (__restartElectron p0 s) rest).now =
      s.now + (rest.map Prod.fst).sum := by
    rw [h3]; simp [__restartElectron, Runner.emit]
  have hel : elapse D (requestBurst (__restartElectron p0 s) rest) =
      { restartAction ((rest.map Prod.snd).getLastD p0)
          { requestBurst (__restartElectron p0 s) rest with
            now := s.now + (rest.map Prod.fst).sum + 1000, timer := none } with
        now := s.now + (rest.map Prod.fst).sum + D } := by
    unfold elapse
    rw [h1]
    simp only [wait, h3']
    rw [if_pos (by omega)]
  have hsp : spawns (elapse D (requestBurst (__restartElectron p0 s) rest)) =
      spawns s ++ [(s.now + (rest.map Prod.fst).sum + 1000,
        "--inspect=5858" :: electronMain :: (rest.map Prod.snd).getLastD p0)] := by
    rw [hel]
    have := spawns_restartAction ((rest.map Prod.snd).getLastD p0)
      { requestBurst (__restartElectron p0 s) rest with
        now := s.now + (rest.map Prod.fst).sum + 1000, timer := none }
    rw [← h2]
    simpa [spawns] using this
  have htm : (elapse D (requestBurst (__restartElectron p0 s) rest)).timer = none := by
    rw [hel]
    simp [timer_restartAction]
  refine ⟨h2, h3', hel, hsp, htm, ?_⟩
  intro D2
  rw [elapse_no_timer D2 _ htm]
  exact spawns_of_trace_eq rfl

/-- Witness for C3: three requests at 0, 300 and 1299 ms give one spawn, at
2299 ms, with the parameters of the third. -/
theorem debounce_coalesces_witness :
    spawns (elapse 1000 (requestBurst (__restartElectron ["a"] Runner.init)
      [(300, ["b"]), (999, ["c"])])) =
      [(2299, ["--inspect=5858", electronMain, "c"])] :=
  (debounce_coalesces Runner.init ["a"] [(300, ["b"]), (999, ["c"])] 1000
    (by decide) (by decide)).2.2.2.1

theorem closeWatcher_fields (w : Option Nat) (s : Runner) :
    (closeWatcher w s).timer = s.timer ∧ (closeWatcher w s).pid = s.pid ∧
    (closeWatcher w s).procs = s.procs ∧ spawns (closeWatcher w s) = spawns s ∧
    (closeWatcher w s).url = s.url ∧ (closeWatcher w s).closures = s.closures ∧
    (closeWatcher w s).halted = s.halted := by
  cases w with
  | none => simp [closeWatcher]
  | some i =>
    simp [closeWatcher, Runner.emit, spawns, List.filterMap_append]

theorem pid_stopElectron (s : Runner) : (__stopElectron s).pid = 0 := by
  unfold __stopElectron
  split
  · assumption
  · rfl

theorem stop_fields (s : Runner) :
    (stop s).timer = none ∧ (stop s).pid = 0 ∧ spawns (stop s) = spawns s ∧
    (stop s).procs.length = s.procs.length ∧ (stop s).url = s.url ∧
    (stop s).closures = s.closures ∧ (stop s).halted = s.halted := by
  obtain ⟨a1, a2, a3, a4, a5, a6, a7⟩ :=
    closeWatcher_fields (__stopElectron (cancel s)).mainWatcher (__stopElectron (cancel s))
  obtain ⟨b1, b2, b3, b4, b5, b6, b7⟩ :=
    closeWatcher_fields
      (closeWatcher (__stopElectron (cancel s)).mainWatcher (__stopElectron (cancel s))).preloadWatcher
      (closeWatcher (__stopElectron (cancel s)).mainWatcher (__stopElectron (cancel s)))
  have c1 : (__stopElectron (cancel s)).timer = none := by
    unfold __stopElectron cancel
    split <;> simp [Runner.emit]
  have c3 : (__stopElectron (cancel s)).procs.length = s.procs.length := by
    unfold __stopElectron cancel
    split <;> simp [Runner.emit]
  have c4 : (__stopElectron (cancel s)).url = s.url ∧
      (__stopElectron (cancel s)).closures = s.closures ∧
      (__stopElectron (cancel s)).halted = s.halted := by
    unfold __stopElectron cancel
    split <;> simp [Runner.emit]
  have c5 : spawns (__stopElectron (cancel s)) = spawns s := by
    rw [spawns_stopElectron]
    exact spawns_of_trace_eq rfl
  refine ⟨?_, ?_, ?_, ?_, ?_, ?_, ?_⟩
  · show (closeWatcher _ (closeWatcher _ (__stopElectron (cancel s)))).timer = none
    rw [b1, a1, c1]
  · show (closeWatcher _ (closeWatcher _ (__stopElectron (cancel s)))).pid = 0
    rw [b2, a2, pid_stopElectron]
  · have : spawns (stop s) =
        spawns (closeWatcher
          (closeWatcher (__stopElectron (cancel s)).mainWatcher
            (__stopElectron (cancel s))).preloadWatcher
          (closeWatcher (__stopElectron (cancel s)).mainWatcher (__stopElectron (cancel s)))) :=
      spawns_of_trace_eq rfl
    rw [this, b4, a4, c5]
  · show (closeWatcher _ (closeWatcher _ (__stopElectron (cancel s)))).procs.length = _
    rw [b3, a3, c3]
  · show (closeWatcher _ (closeWatcher _ (__stopElectron (cancel s)))).url = _
    rw [b5, a5, c4.1]
  · show (closeWatcher _ (closeWatcher _ (__stopElectron (cancel s)))).closures = _
    rw [b6, a6, c4.2.1]
  · show (closeWatcher _ (closeWatcher _ (__stopElectron (cancel s)))).halted = _
    rw [b7, a7, c4.2.2]

end TimerClaims

section StopClaims

theorem onExit_fields (pid : Nat) (code : Option Nat) (s : Runner) :
    (onExit pid code s).timer = s.timer ∧ (onExit pid code s).pid = s.pid ∧
    spawns (onExit pid code s) = spawns s ∧
    (onExit pid code s).procs.length = s.procs.length := by
  unfold onExit
  split
  · unfold exitCallback
    split
    · simp [spawns]
    · split <;> simp [fatal, Runner.emit, spawns, List.filterMap_append]
  · simp

/-- With no timer pending and no process tracked, time passing, exit
notifications and `stop()` spawn nothing. -/
theorem step_quiet (s : Runner) (e : Event) (hq : e.quiet = true)
    (ht : s.timer = none) (hp : s.pid = 0) :
    (step s e).timer = none ∧ (step s e).pid = 0 ∧ spawns (step s e) = spawns s ∧
    (step s e).procs.length = s.procs.length := by
  unfold step
  split
  · exact ⟨ht, hp, rfl, rfl⟩
  · cases e with
    | run url argv => simp [Event.quiet] at hq
    | outcome w o => simp [Event.quiet] at hq
    | stop =>
      obtain ⟨h1, h2, h3, h4, -⟩ := stop_fields s
      exact ⟨h1, h2, h3, h4⟩
    | elapse d =>
      show (elapse d s).timer = none ∧ (elapse d s).pid = 0 ∧
        spawns (elapse d s) = spawns s ∧ (elapse d s).procs.length = s.procs.length
      rw [elapse_no_timer d s ht]
      exact ⟨ht, hp, spawns_of_trace_eq rfl, rfl⟩
    | exit pid code =>
      obtain ⟨h1, h2, h3, h4⟩ := onExit_fields pid code s
      exact ⟨h1.trans ht, h2.trans hp, h3, h4⟩

theorem steps_quiet (es : List Event) :
    ∀ s : Runner, (∀ e ∈ es, e.quiet = true) → s.timer = none → s.pid = 0 →
      (steps s es).timer = none ∧ (steps s es).pid = 0 ∧ spawns (steps s es) = spawns s ∧
      (steps s es).procs.length = s.procs.length := by
  induction es with
  | nil => intro s _ ht hp; exact ⟨ht, hp, rfl, rfl⟩
  | cons e es ih =>
    intro s hq ht hp
    obtain ⟨h1, h2, h3, h4⟩ := step_quiet s e (hq e (List.mem_cons_self _ _)) ht hp
    obtain ⟨g1, g2, g3, g4⟩ := ih (step s e) (fun x hx => hq x (List.mem_cons_of_mem _ hx)) h1 h2
    exact ⟨g1, g2, g3.trans h3, g4.trans h4⟩

/-- C4: in every runner state, in particular one with a debounced restart
pending, `stop()` leaves no timer pending and no process tracked (`pid = 0`),
whether or not one was tracked before; and afterwards, however much time passes
and whatever exit notifications or further `stop()` calls arrive, the restart
action does not run: nothing is spawned and `pid` stays 0. -/
theorem stop_cancels_pending_restart (s : Runner) (es : List Event)
    (hq : ∀ e ∈ es, e.quiet = true) :
    (stop s).timer = none ∧ (stop s).pid = 0 ∧ spawns (stop s) = spawns s ∧
    (steps (stop s) es).timer = none ∧ (steps (stop s) es).pid = 0 ∧
    spawns (steps (stop s) es) = spawns s ∧
    (steps (stop s) es).procs.length = s.procs.length := by
  obtain ⟨h1, h2, h3, h4, -⟩ := stop_fields s
  obtain ⟨g1, g2, g3, g4⟩ := steps_quiet es (stop s) hq h1 h2
  exact ⟨h1, h2, h3, g1, g2, g3.trans h3, g4.trans h4⟩

/-- Witness for C4: process 1 is tracked and a restart is pending (requested at
1000 ms); after `stop()` and 5000 ms more, only the first spawn has happened. -/
theorem stop_cancels_pending_restart_witness :
    (steps Runner.init [.run "u" [], .outcome 0 .success, .outcome 1 .success, .elapse 1000,
      .outcome 0 .success]).timer = some (2000, []) ∧
    (steps Runner.init [.run "u" [], .outcome 0 .success, .outcome 1 .success, .elapse 1000,
      .outcome 0 .success]).pid = 1 ∧
    (steps (stop (steps Runner.init [.run "u" [], .outcome 0 .success, .outcome 1 .success,
      .elapse 1000, .outcome 0 .success])) [.elapse 5000, .exit 1 none]).pid = 0 ∧
    spawns (steps (stop (steps Runner.init [.run "u" [], .outcome 0 .success,
      .outcome 1 .success, .elapse 1000, .outcome 0 .success])) [.elapse 5000, .exit 1 none]) =
      [(1000, ["--inspect=5858", electronMain])] :=
  ⟨by decide, by decide,
   (stop_cancels_pending_restart
      (steps Runner.init [.run "u" [], .outcome 0 .success, .outcome 1 .success, .elapse 1000,
        .outcome 0 .success])
      [.elapse 5000, .exit 1 none] (by decide)).2.2.2.2.1,
   (stop_cancels_pending_restart
      (steps Runner.init [.run "u" [], .outcome 0 .success, .outcome 1 .success, .elapse 1000,
        .outcome 0 .success])
      [.elapse 5000, .exit 1 none] (by decide)).2.2.2.2.2.1.trans (by decide)⟩

end StopClaims

/-! ## The process slot -/

section Slot

theorem slotInv_of_eq {s t : Runner} (h : SlotInv s) (h1 : t.procs = s.procs)
    (h2 : t.pid = s.pid) (h3 : t.trace = s.trace) : SlotInv t := by
  unfold SlotInv liveCount at *
  rw [h1, h2, h3]
  exact h

theorem slotInv_emit {s : Runner} (e : Effect) (he : ∀ tr pid args, e ≠ .spawn tr pid args)
    (h : SlotInv s) : SlotInv (s.emit e) := by
  obtain ⟨h1, h2, h3, h4⟩ := h
  refine ⟨h1, h2, h3, ?_⟩
  intro x hx tr pid args hxe
  simp only [Runner.emit, List.mem_append, List.mem_singleton] at hx
  rcases hx with hx | hx
  · exact h4 x hx tr pid args hxe
  · subst hx
    exact absurd hxe (he tr pid args)

theorem slotInv_init : SlotInv Runner.init := by
  simp [SlotInv, Runner.init, liveCount]

/-- After `__stopElectron` every spawned process has been killed and none is
tracked. -/
theorem slotInv_stopElectron {s : Runner} (h : SlotInv s) :
    SlotInv (__stopElectron s) ∧ (∀ p ∈ (__stopElectron s).procs, p.killed = true) ∧
    (__stopElectron s).pid = 0 := by
  obtain ⟨h1, h2, h3, h4⟩ := h
  have hall : ∀ p ∈ (__stopElectron s).procs, p.killed = true := by
    unfold __stopElectron
    split
    · rename_i h0
      intro p hp
      by_contra hk
      have := h1 p hp (by simpa using hk)
      have := h2 p hp
      omega
    · intro p hp
      simp only [Runner.emit, List.mem_map] at hp
      obtain ⟨q, hq, rfl⟩ := hp
      by_cases hqp : q.pid = s.pid
      · simp [hqp]
      · simp only [hqp, if_false]
        by_contra hk
        exact hqp (h1 q hq (by simpa using hk))
  have hpos : ∀ p ∈ (__stopElectron s).procs, 0 < p.pid := by
    unfold __stopElectron
    split
    · exact h2
    · intro p hp
      simp only [Runner.emit, List.mem_map] at hp
      obtain ⟨q, hq, rfl⟩ := hp
      split <;> exact h2 q hq
  have htr : ∀ x ∈ (__stopElectron s).trace, ∀ tr pid args,
      x.2 = Effect.spawn tr pid args → tr = 0 := by
    unfold __stopElectron
    split
    · exact h4
    · intro x hx tr pid args hxe
      simp only [Runner.emit, List.mem_append, List.mem_singleton] at hx
      rcases hx with hx | hx
      · exact h4 x hx tr pid args hxe
      · subst hx
        simp at hxe
  refine ⟨⟨?_, hpos, ?_, htr⟩, hall, pid_stopElectron s⟩
  · intro p hp hk
    rw [hall p hp] at hk
    exact absurd hk (by simp)
  · have : liveCount (__stopElectron s) = 0 := by
      unfold liveCount
      rw [List.countP_eq_zero]
      intro p hp
      simp [hall p hp]
    omega

/-- Entered with `pid = 0` and every earlier process killed, `__startElectron`
leaves exactly the new process not killed, and it is the tracked one. -/
theorem slotInv_startElectron {s : Runner} (params : List String) (h : SlotInv s)
    (hall : ∀ p ∈ s.procs, p.killed = true) (h0 : s.pid = 0) :
    SlotInv (__startElectron params s) := by
  obtain ⟨-, h2, -, h4⟩ := h
  have hc : s.procs.countP (fun p => p.killed = false) = 0 := by
    rw [List.countP_eq_zero]
    intro p hp
    simp [hall p hp]
  refine ⟨?_, ?_, ?_, ?_⟩
  · intro p hp hk
    simp only [__startElectron, Runner.emit, List.mem_append, List.mem_singleton] at hp ⊢
    rcases hp with hp | hp
    · rw [hall p hp] at hk
      exact absurd hk (by simp)
    · subst hp
      rfl
  · intro p hp
    simp only [__startElectron, Runner.emit, List.mem_append, List.mem_singleton] at hp
    rcases hp with hp | hp
    · exact h2 p hp
    · subst hp
      simp
  · simp only [liveCount, __startElectron, Runner.emit, List.countP_append, hc]
    simp [List.countP_cons]
  · intro x hx tr pid args hxe
    simp only [__startElectron, Runner.emit, List.mem_append, List.mem_singleton] at hx
    rcases hx with hx | hx
    · exact h4 x hx tr pid args hxe
    · subst hx
      simp only [Effect.spawn.injEq] at hxe
      rw [← hxe.1, h0]

theorem slotInv_restartAction {s : Runner} (params : List String) (h : SlotInv s) :
    SlotInv (restartAction params s) := by
  obtain ⟨g1, g2, g3⟩ := slotInv_stopElectron h
  exact slotInv_startElectron params g1 g2 g3

end Slot

section SlotClaims

theorem slotInv_closeWatcher {s : Runner} (w : Option Nat) (h : SlotInv s) :
    SlotInv (closeWatcher w s) := by
  cases w with
  | none => exact h
  | some i => exact slotInv_of_eq (slotInv_emit (.close i) (by simp) h) rfl rfl rfl

theorem slotInv_stop {s : Runner} (h : SlotInv s) : SlotInv (stop s) := by
  have h1 : SlotInv (cancel s) := slotInv_of_eq h rfl rfl rfl
  have h2 := (slotInv_stopElectron h1).1
  have h3 := slotInv_closeWatcher (__stopElectron (cancel s)).mainWatcher h2
  have h4 := slotInv_closeWatcher
    (closeWatcher (__stopElectron (cancel s)).mainWatcher
      (__stopElectron (cancel s))).preloadWatcher h3
  exact slotInv_of_eq h4 rfl rfl rfl

theorem slotInv_run {s : Runner} (url : String) (argv : List String) (h : SlotInv s) :
    SlotInv (run url argv s) := by
  unfold run
  split
  · exact h
  · have h1 : SlotInv (if s.pid ≠ 0 then stop s else s) := by
      split
      · exact slotInv_stop h
      · exact h
    exact slotInv_of_eq h1 rfl rfl rfl

theorem slotInv_restartElectron {s : Runner} (params : List String) (h : SlotInv s) :
    SlotInv (__restartElectron params s) :=
  slotInv_of_eq (slotInv_emit (.restartRequested params) (by simp) h) rfl rfl rfl

theorem slotInv_onOutcome {s : Runner} (w : Nat) (o : BuildOutcome) (h : SlotInv s) :
    SlotInv (onOutcome w o s) := by
  unfold onOutcome
  split
  · exact h
  · split
    · exact h
    · split
      · exact h
      · dsimp only
        split
        · exact slotInv_of_eq h rfl rfl rfl
        · exact slotInv_restartElectron _ (slotInv_of_eq h rfl rfl rfl)

theorem slotInv_markExited {s : Runner} (pid : Nat) (h : SlotInv s) :
    SlotInv { s with
      procs := s.procs.map (fun p => if p.pid = pid then { p with exited := true } else p) } := by
  obtain ⟨h1, h2, h3, h4⟩ := h
  refine ⟨?_, ?_, ?_, h4⟩
  · intro p hp hk
    simp only [List.mem_map] at hp
    obtain ⟨q, hq, rfl⟩ := hp
    by_cases hqp : q.pid = pid
    · simp only [hqp, if_true] at hk ⊢
      rw [← hqp]
      exact h1 q hq hk
    · simp only [hqp, if_false] at hk ⊢
      exact h1 q hq hk
  · intro p hp
    simp only [List.mem_map] at hp
    obtain ⟨q, hq, rfl⟩ := hp
    split <;> exact h2 q hq
  · have : liveCount { s with
        procs := s.procs.map (fun p => if p.pid = pid then { p with exited := true } else p) } =
        liveCount s := by
      simp only [liveCount, List.countP_map]
      congr 1
      funext p
      simp only [Function.comp]
      split <;> rfl
    omega

theorem slotInv_onExit {s : Runner} (pid : Nat) (code : Option Nat) (h : SlotInv s) :
    SlotInv (onExit pid code s) := by
  unfold onExit
  split
  · have hm := slotInv_markExited pid h
    unfold exitCallback
    split
    · exact slotInv_of_eq hm rfl rfl rfl
    · split
      · exact slotInv_of_eq (slotInv_emit _ (by simp) hm) rfl rfl rfl
      · exact slotInv_of_eq (slotInv_emit _ (by simp) hm) rfl rfl rfl
  · exact h

theorem slotInv_elapse {s : Runner} (d : Nat) (h : SlotInv s) : SlotInv (elapse d s) := by
  unfold elapse
  split
  · exact slotInv_of_eq h rfl rfl rfl
  · rename_i due params _
    split
    · have h1 : SlotInv { s with now := due, timer := none } := slotInv_of_eq h rfl rfl rfl
      exact slotInv_of_eq (slotInv_restartAction params h1) rfl rfl rfl
    · exact slotInv_of_eq h rfl rfl rfl

theorem slotInv_step {s : Runner} (e : Event) (h : SlotInv s) : SlotInv (step s e) := by
  unfold step
  split
  · exact h
  · cases e with
    | run url argv => exact slotInv_run url argv h
    | stop => exact slotInv_stop h
    | outcome w o => exact slotInv_onOutcome w o h
    | elapse d => exact slotInv_elapse d h
    | exit pid code => exact slotInv_onExit pid code h

theorem slotInv_steps (es : List Event) : ∀ s : Runner, SlotInv s → SlotInv (steps s es) := by
  induction es with
  | nil => intro s h; exact h
  | cons e es ih => intro s h; exact ih (step s e) (slotInv_step e h)

/-- C7: after every sequence of `run`, `stop`, build-outcome, time and exit
events from the constructed runner, every `spawn` so far was made by a
`__startElectron` entered with `pid = 0`; at most one spawned process has not
been killed by `__stopElectron`, and it is the one `pid` tracks; and the
`__stopElectron` that opens a restart leaves `pid = 0` with no process not yet
killed, so the process it replaces is killed before the new one is spawned. -/
theorem single_process_slot (es : List Event) :
    (∀ x ∈ (steps Runner.init es).trace, ∀ tr pid args,
      x.2 = Effect.spawn tr pid args → tr = 0) ∧
    liveCount (steps Runner.init es) ≤ 1 ∧
    (∀ p ∈ (steps Runner.init es).procs, p.killed = false →
      p.pid = (steps Runner.init es).pid) ∧
    (__stopElectron (steps Runner.init es)).pid = 0 ∧
    liveCount (__stopElectron (steps Runner.init es)) = 0 ∧
    ∀ params, liveCount (restartAction params (steps Runner.init es)) = 1 := by
  have h := slotInv_steps es Runner.init slotInv_init
  obtain ⟨g1, g2, g3⟩ := slotInv_stopElectron h
  have hz : liveCount (__stopElectron (steps Runner.init es)) = 0 := by
    unfold liveCount
    rw [List.countP_eq_zero]
    intro p hp
    simp [g2 p hp]
  refine ⟨h.2.2.2, h.2.2.1, h.1, g3, hz, ?_⟩
  intro params
  have hc : (__stopElectron (steps Runner.init es)).procs.countP
      (fun p => p.killed = false) = 0 := hz
  simp only [liveCount, restartAction, __startElectron, Runner.emit, List.countP_append, hc]
  simp [List.countP_cons]

end SlotClaims

/-! ## Exit classification -/

section ExitClaims

/-- C5, code at the failing input: both builds succeed, process 1 is spawned at
1000 ms; a rebuild restarts it at 2000 ms (`__stopElectron` kills 1,
`__startElectron` spawns 2); `stop()` at 2005 ms kills 2.  Then the exit
notification of 1 arrives and clears `__justKilledIt`, and the exit callback of
2, a process killed by `__stopElectron`, calls `fatal`. -/
theorem killed_process_reported_fatal :
    (steps Runner.init
      [.run "u" [], .outcome 0 .success, .outcome 1 .success, .elapse 1000,
       .outcome 0 .success, .elapse 1000, .elapse 5, .stop]).procs =
      [{ pid := 1, args := ["--inspect=5858", electronMain], killed := true, exited := false },
       { pid := 2, args := ["--inspect=5858", electronMain], killed := true, exited := false }] ∧
    (steps Runner.init
      [.run "u" [], .outcome 0 .success, .outcome 1 .success, .elapse 1000,
       .outcome 0 .success, .elapse 1000, .elapse 5, .stop,
       .exit 1 none, .exit 2 none]).trace =
      [(0, .restartRequested []),
       (1000, .spawn 0 1 ["--inspect=5858", electronMain]),
       (1000, .restartRequested []),
       (2000, .kill 1),
       (2000, .spawn 0 2 ["--inspect=5858", electronMain]),
       (2005, .kill 2),
       (2005, .close 0),
       (2005, .close 1),
       (2005, .fatal 2 .wasKilled)] := by
  decide

/-- C6, code at the failing input: process 1 is spawned at 1000 ms and replaced
at 2000 ms by process 2 (`__stopElectron` kills 1 and sets `__justKilledIt`).
Process 2 then ends with exit code 1 before the exit notification of 1 has
arrived: it was never killed by `__stopElectron`, yet its exit callback only
clears the flag and `fatal` is not called. -/
theorem unexpected_exit_not_reported :
    (steps Runner.init
      [.run "u" [], .outcome 0 .success, .outcome 1 .success, .elapse 1000,
       .outcome 0 .success, .elapse 1000, .exit 2 (some 1)]).procs =
      [{ pid := 1, args := ["--inspect=5858", electronMain], killed := true, exited := false },
       { pid := 2, args := ["--inspect=5858", electronMain], killed := false, exited := true }] ∧
    (steps Runner.init
      [.run "u" [], .outcome 0 .success, .outcome 1 .success, .elapse 1000,
       .outcome 0 .success, .elapse 1000, .exit 2 (some 1)]).trace =
      [(0, .restartRequested []),
       (1000, .spawn 0 1 ["--inspect=5858", electronMain]),
       (1000, .restartRequested []),
       (2000, .kill 1),
       (2000, .spawn 0 2 ["--inspect=5858", electronMain])] ∧
    (steps Runner.init
      [.run "u" [], .outcome 0 .success, .outcome 1 .success, .elapse 1000,
       .outcome 0 .success, .elapse 1000, .exit 2 (some 1)]).halted = false := by
  decide

end ExitClaims

/-! ## Watch subscriptions across `run` and `stop` -/

section WatchClaims

/-- C9, code at the failing input: `run` for target "a", then `run` for target
"b" while no process is tracked, then `stop()`.  The second `run` skips `stop()`
(`pid` is 0) and overwrites both watcher slots, so `stop()` closes only the
watchers of the second call: watchers 0 and 1 stay open, and their callbacks
can still spawn a process after `stop()`. -/
theorem watchers_left_open_after_stop :
    (steps Runner.init [.run "a" [], .run "b" [], .stop]).watchers =
      [{ id := 0, run := 0, kind := .main, closed := false },
       { id := 1, run := 0, kind := .preload, closed := false },
       { id := 2, run := 1, kind := .main, closed := true },
       { id := 3, run := 1, kind := .preload, closed := true }] ∧
    (steps Runner.init [.run "a" [], .run "b" [], .stop]).mainWatcher = none ∧
    (steps Runner.init [.run "a" [], .run "b" [], .stop]).preloadWatcher = none ∧
    spawns (steps Runner.init [.run "a" ["x"], .run "b" [], .stop,
      .outcome 0 .success, .outcome 1 .success, .elapse 1000]) =
      [(1000, ["--inspect=5858", electronMain, "x"])] := by
  decide

/-- C10, as stated, fails: after `run` for target "a" and `stop()`, a new `run`
for the same target returns at the unchanged-target check; no watcher is
created, both slots stay `null` and the only watchers are the closed ones. -/
theorem run_after_stop_same_url_is_noop :
    (steps Runner.init [.run "a" [], .stop, .run "a" []]).mainWatcher = none ∧
    (steps Runner.init [.run "a" [], .stop, .run "a" []]).preloadWatcher = none ∧
    (steps Runner.init [.run "a" [], .stop, .run "a" []]).watchers =
      [{ id := 0, run := 0, kind := .main, closed := true },
       { id := 1, run := 0, kind := .preload, closed := true }] ∧
    steps Runner.init [.run "a" [], .stop, .run "a" []] =
      steps Runner.init [.run "a" [], .stop] := by
  decide

theorem url_run (url : String) (argv : List String) (s : Runner) :
    (run url argv s).url = some url := by
  unfold run
  split
  · assumption
  · rfl

/-- A `run` call for a target other than the last one, made while no process is
tracked, appends a fresh closure and two open watchers and stores them. -/
theorem run_new_target (t : Runner) (url2 : String) (argv2 : List String)
    (hne : ¬ t.url = some url2) (hpid : t.pid = 0) :
    run url2 argv2 t =
      { t with
        url := some url2
        closures := t.closures ++ [RunClosure.fresh argv2]
        watchers := t.watchers ++
          [{ id := t.watchers.length, run := t.closures.length, kind := .main, closed := false },
           { id := t.watchers.length + 1, run := t.closures.length, kind := .preload,
             closed := false }]
        mainWatcher := some t.watchers.length
        preloadWatcher := some (t.watchers.length + 1) } := by
  unfold run
  rw [if_neg hne]
  simp [hpid]

/-- C10 (amended): after `run(c)` followed by `stop()`, a call `run(c2)` whose
APP_URL differs from that of `c` starts watching again: it creates two new, open
watch subscriptions (main, then preload) with a fresh closure and stores them
in `mainWatcher` and `preloadWatcher`.  While the runner is running, `run` for
the unchanged target is a no-op. -/
theorem run_after_stop_watches_again (s : Runner) (url url2 : String)
    (argv argv2 : List String) (h : url2 ≠ url) :
    (run url2 argv2 (stop (run url argv s))).mainWatcher =
      some (stop (run url argv s)).watchers.length ∧
    (run url2 argv2 (stop (run url argv s))).preloadWatcher =
      some ((stop (run url argv s)).watchers.length + 1) ∧
    (run url2 argv2 (stop (run url argv s))).watchers =
      (stop (run url argv s)).watchers ++
        [{ id := (stop (run url argv s)).watchers.length,
           run := (stop (run url argv s)).closures.length, kind := .main, closed := false },
         { id := (stop (run url argv s)).watchers.length + 1,
           run := (stop (run url argv s)).closures.length, kind := .preload, closed := false }] ∧
    (run url2 argv2 (stop (run url argv s))).closures =
      (stop (run url argv s)).closures ++ [RunClosure.fresh argv2] ∧
    (run url2 argv2 (stop (run url argv s))).url = some url2 ∧
    run url argv2 (run url argv s) = run url argv s := by
  have hf := stop_fields (run url argv s)
  have hurl : (stop (run url argv s)).url = some url := by
    rw [hf.2.2.2.2.1, url_run]
  have hne : ¬ (stop (run url argv s)).url = some url2 := by
    rw [hurl]
    intro hc
    exact h (Option.some.inj hc).symm
  have hrun := run_new_target (stop (run url argv s)) url2 argv2 hne hf.2.1
  refine ⟨?_, ?_, ?_, ?_, ?_, ?_⟩
  · rw [hrun]
  · rw [hrun]
  · rw [hrun]
  · rw [hrun]
  · rw [hrun]
  · rw [run, if_pos (url_run url argv s)]

/-- Witness for C10 (amended): from the constructed runner, `run` "a", `stop()`,
`run` "b" leaves watchers 2 and 3 in the two slots. -/
theorem run_after_stop_watches_again_witness :
    (run "b" [] (stop (run "a" [] Runner.init))).mainWatcher = some 2 ∧
    (run "b" [] (stop (run "a" [] Runner.init))).preloadWatcher = some 3 :=
  ⟨(run_after_stop_watches_again Runner.init "a" "b" [] [] (by decide)).1,
   (run_after_stop_watches_again Runner.init "a" "b" [] [] (by decide)).2.1⟩

end WatchClaims

/-! ## The timed scenario -/

section Scenario

/-- C11: from the constructed runner, `run` is called, main and preload both
succeed at 0 ms, preload fails (either kind of Error) at 1050 ms and succeeds at
1200 ms, and nothing else happens.  Then: after the failure only the request of
0 ms and the spawn of process 1 at 1000 ms have happened, no timer is pending
and process 1 is tracked; at every time before 2200 ms process 1 is still
tracked, not killed, and the only process; and once 2200 ms are reached exactly
two processes have been spawned, 1 at 1000 ms and 2 at 2200 ms, process 1 being
killed at 2200 ms before process 2 is spawned with `pid = 0`. -/
theorem timed_scenario (mainFirst : Bool) (url : String) (argv : List String)
    (o : BuildOutcome) (d D : Nat) (ho : o ≠ .success) (hd : d < 1000) (hD : 1000 ≤ D) :
    ((steps Runner.init (scenarioStart mainFirst url argv ++ [.outcome 1 o])).trace =
        [(0, .restartRequested argv),
         (1000, .spawn 0 1 ("--inspect=5858" :: electronMain :: argv))] ∧
      (steps Runner.init (scenarioStart mainFirst url argv ++ [.outcome 1 o])).timer = none ∧
      (steps Runner.init (scenarioStart mainFirst url argv ++ [.outcome 1 o])).pid = 1 ∧
      (steps Runner.init (scenarioStart mainFirst url argv ++ [.outcome 1 o])).now = 1050) ∧
    ((steps Runner.init (scenarioStart mainFirst url argv ++
        [.outcome 1 o, .elapse 150, .outcome 1 .success, .elapse d])).pid = 1 ∧
      (steps Runner.init (scenarioStart mainFirst url argv ++
        [.outcome 1 o, .elapse 150, .outcome 1 .success, .elapse d])).procs =
        [{ pid := 1, args := "--inspect=5858" :: electronMain :: argv,
           killed := false, exited := false }] ∧
      (steps Runner.init (scenarioStart mainFirst url argv ++
        [.outcome 1 o, .elapse 150, .outcome 1 .success, .elapse d])).timer =
        some (2200, argv) ∧
      (steps Runner.init (scenarioStart mainFirst url argv ++
        [.outcome 1 o, .elapse 150, .outcome 1 .success, .elapse d])).now = 1200 + d) ∧
    ((steps Runner.init (scenarioStart mainFirst url argv ++
        [.outcome 1 o, .elapse 150, .outcome 1 .success, .elapse D])).trace =
        [(0, .restartRequested argv),
         (1000, .spawn 0 1 ("--inspect=5858" :: electronMain :: argv)),
         (1200, .restartRequested argv),
         (2200, .kill 1),
         (2200, .spawn 0 2 ("--inspect=5858" :: electronMain :: argv))] ∧
      (steps Runner.init (scenarioStart mainFirst url argv ++
        [.outcome 1 o, .elapse 150, .outcome 1 .success, .elapse D])).procs =
        [{ pid := 1, args := "--inspect=5858" :: electronMain :: argv,
           killed := true, exited := false },
         { pid := 2, args := "--inspect=5858" :: electronMain :: argv,
           killed := false, exited := false }] ∧
      (steps Runner.init (scenarioStart mainFirst url argv ++
        [.outcome 1 o, .elapse 150, .outcome 1 .success, .elapse D])).pid = 2 ∧
      (steps Runner.init (scenarioStart mainFirst url argv ++
        [.outcome 1 o, .elapse 150, .outcome 1 .success, .elapse D])).timer = none) := by
  have h1 : ¬ 2200 ≤ 1200 + d := by omega
  have h2 : 2200 ≤ 1200 + D := by omega
  cases mainFirst <;> cases o <;> first
    | exact absurd rfl ho
    | simp [scenarioStart, steps, step, run, onOutcome, elapse, Runner.init, watchCallback,
        mainCallback, preloadCallback, setClosure, __restartElectron, Runner.emit,
        restartAction, __startElectron, __stopElectron, RunClosure.fresh, wait, h1, h2]

/-- Witness for C11: preload first, the failure is `stats.hasErrors()`; at
2199 ms process 1 is still tracked, and by 2200 ms the trace is complete. -/
theorem timed_scenario_witness :
    (steps Runner.init (scenarioStart false "u" ["x"] ++
      [.outcome 1 .statsErrors, .elapse 150, .outcome 1 .success, .elapse 999])).pid = 1 ∧
    (steps Runner.init (scenarioStart false "u" ["x"] ++
      [.outcome 1 .statsErrors, .elapse 150, .outcome 1 .success, .elapse 1000])).trace =
      [(0, .restartRequested ["x"]),
       (1000, .spawn 0 1 ["--inspect=5858", electronMain, "x"]),
       (1200, .restartRequested ["x"]),
       (2200, .kill 1),
       (2200, .spawn 0 2 ["--inspect=5858", electronMain, "x"])] :=
  ⟨(timed_scenario false "u" ["x"] .statsErrors 999 1000
      (by decide) (by decide) (by decide)).2.1.1,
   (timed_scenario false "u" ["x"] .statsErrors 999 1000
      (by decide) (by decide) (by decide)).2.2.1⟩

end Scenario

end ElectronRunner

/-! ## `flattenObject` flattens nested keys -/

namespace Webserver

section Flatten

variable {α β : Type}

theorem setKey_of_not_mem (acc : List (String × β)) (k : String) (v : β)
    (h : k ∉ acc.map Prod.fst) : setKey acc k v = acc ++ [(k, v)] := by
  induction acc with
  | nil => rfl
  | cons e rest ih =>
    simp only [List.map_cons, List.mem_cons, not_or] at h
    simp only [setKey, List.cons_append]
    rw [if_neg (fun hc => h.1 hc.symm), ih h.2]

theorem objectAssign_of_fresh (m : List (String × β)) :
    ∀ acc : List (String × β), (m.map Prod.fst).Nodup →
      (∀ x ∈ m.map Prod.fst, x ∉ acc.map Prod.fst) → objectAssign acc m = acc ++ m := by
  induction m with
  | nil => intro acc _ _; simp [objectAssign]
  | cons e m ih =>
    intro acc hnd hfr
    simp only [List.map_cons, List.nodup_cons] at hnd
    have he : e.1 ∉ acc.map Prod.fst := hfr e.1 (by simp)
    have hstep : objectAssign acc (e :: m) = objectAssign (setKey acc e.1 e.2) m := rfl
    rw [hstep, setKey_of_not_mem acc e.1 e.2 he, ih (acc ++ [(e.1, e.2)]) hnd.2]
    · simp
    · intro x hx
      simp only [List.map_append, List.map_cons, List.map_nil, List.mem_append,
        List.mem_singleton, not_or]
      refine ⟨hfr x (by simp [hx]), ?_⟩
      rintro rfl
      exact hnd.1 hx

theorem dotfree_append_inj : ∀ (a b t u : List Char), '.' ∉ a → '.' ∉ b →
    (t = [] ∨ ∃ w, t = '.' :: w) → (u = [] ∨ ∃ w, u = '.' :: w) →
    a ++ t = b ++ u → a = b := by
  intro a
  induction a with
  | nil =>
    intro b t u _ hb ht hu h
    cases b with
    | nil => rfl
    | cons c b =>
      exfalso
      rcases ht with rfl | ⟨w, rfl⟩
      · simp at h
      · simp only [List.nil_append, List.cons_append, List.cons.injEq] at h
        exact hb (by simp [← h.1])
  | cons c a ih =>
    intro b t u ha hb ht hu h
    cases b with
    | nil =>
      exfalso
      rcases hu with rfl | ⟨w, rfl⟩
      · simp at h
      · simp only [List.nil_append, List.cons_append, List.cons.injEq] at h
        exact ha (by simp [h.1])
    | cons c2 b =>
      simp only [List.cons_append, List.cons.injEq] at h
      simp only [List.mem_cons, not_or] at ha hb
      rw [h.1, ih b t u ha.2 hb.2 ht hu h.2]

theorem extends_refl (q : String) : Extends q q :=
  ⟨[], by simp, Or.inl rfl⟩

theorem extends_step {q k x : String} (h : Extends (q ++ "." ++ k) x) : Extends q x := by
  obtain ⟨t, ht, -⟩ := h
  refine ⟨_, ?_, Or.inr ⟨k.data ++ t, rfl⟩⟩
  rw [ht]
  simp [String.data_append]

theorem extends_inj {q k k2 x : String} (hk : '.' ∉ k.data) (hk2 : '.' ∉ k2.data)
    (h : Extends (q ++ "." ++ k) x) (h2 : Extends (q ++ "." ++ k2) x) : k = k2 := by
  obtain ⟨t, ht, hts⟩ := h
  obtain ⟨u, hu, hus⟩ := h2
  rw [ht] at hu
  simp only [String.data_append, List.append_assoc, List.append_cancel_left_eq] at hu
  exact String.ext (dotfree_append_inj k.data k2.data t u hk hk2 hts hus hu)

theorem keyed_cons (f : α → β) (q k : String) (v : JsValue α) (rest : JsObj α) :
    keyed f q (leavesEntries (.cons k v rest)) =
      keyed f (q ++ "." ++ k) (leavesValue v) ++ keyed f q (leavesEntries rest) := by
  simp [keyed, leavesEntries, List.map_map, Function.comp, pathKey]

theorem dotFree_keys : ∀ (o : JsObj α), o.dotFree = true → ∀ k ∈ o.keys, '.' ∉ k.data
  | .nil, _, k, hk => by simp [JsObj.keys] at hk
  | .cons k0 v rest, h, k, hk => by
    simp only [JsObj.dotFree, Bool.and_eq_true, Bool.not_eq_true', List.contains_eq_any_beq,
      List.any_eq_false, beq_iff_eq] at h
    simp only [JsObj.keys, List.mem_cons] at hk
    rcases hk with rfl | hk
    · intro hc
      exact h.1.1 _ hc rfl
    · exact dotFree_keys rest h.2 k hk

mutual
theorem keyed_value_extends (f : α → β) :
    ∀ (v : JsValue α) (q : String), ∀ x ∈ (keyed f q (leavesValue v)).map Prod.fst, Extends q x
  | .leaf a, q, x, hx => by
    simp only [keyed, leavesValue, pathKey, List.map_cons, List.map_nil,
      List.mem_singleton] at hx
    rw [hx]
    exact extends_refl q
  | .obj o, q, x, hx => by
    obtain ⟨k, -, hk⟩ := keyed_entries_extends f o q x (by simpa [leavesValue] using hx)
    exact extends_step hk
theorem keyed_entries_extends (f : α → β) :
    ∀ (o : JsObj α) (q : String), ∀ x ∈ (keyed f q (leavesEntries o)).map Prod.fst,
      ∃ k ∈ o.keys, Extends (q ++ "." ++ k) x
  | .nil, q, x, hx => by simp [keyed, leavesEntries] at hx
  | .cons k v rest, q, x, hx => by
    rw [keyed_cons, List.map_append, List.mem_append] at hx
    rcases hx with hx | hx
    · exact ⟨k, by simp [JsObj.keys], keyed_value_extends f v _ x hx⟩
    · obtain ⟨k2, hk2, he⟩ := keyed_entries_extends f rest q x hx
      exact ⟨k2, by simp [JsObj.keys, hk2], he⟩
end

theorem distinct_head {k : String} {v : JsValue α} {rest : JsObj α}
    (h : (JsObj.cons k v rest).distinctKeys = true) :
    k ∉ rest.keys ∧ v.distinctKeys = true ∧ rest.distinctKeys = true := by
  simp only [JsObj.distinctKeys, Bool.and_eq_true, Bool.not_eq_true', List.contains_eq_any_beq,
    List.any_eq_false, beq_iff_eq] at h
  exact ⟨fun hc => h.1.1 _ hc rfl, h.1.2, h.2⟩

theorem dotFree_head {k : String} {v : JsValue α} {rest : JsObj α}
    (h : (JsObj.cons k v rest).dotFree = true) :
    '.' ∉ k.data ∧ v.dotFree = true ∧ rest.dotFree = true := by
  simp only [JsObj.dotFree, Bool.and_eq_true, Bool.not_eq_true', List.contains_eq_any_beq,
    List.any_eq_false, beq_iff_eq] at h
  exact ⟨fun hc => h.1.1 _ hc rfl, h.1.2, h.2⟩

/-- Keys built below two different keys of one object are different. -/
theorem keyed_disjoint (f : α → β) (q k : String) (v : JsValue α) (rest : JsObj α)
    (hd : (JsObj.cons k v rest).dotFree = true) (hu : (JsObj.cons k v rest).distinctKeys = true)
    (x : String) (hx : x ∈ (keyed f (q ++ "." ++ k) (leavesValue v)).map Prod.fst) :
    x ∉ (keyed f q (leavesEntries rest)).map Prod.fst := by
  intro hx2
  obtain ⟨k2, hk2, he2⟩ := keyed_entries_extends f rest q x hx2
  have he := keyed_value_extends f v _ x hx
  obtain ⟨hdk, -, hdr⟩ := dotFree_head hd
  have := extends_inj hdk (dotFree_keys rest hdr k2 hk2) he he2
  rw [← this] at hk2
  exact (distinct_head hu).1 hk2

mutual
theorem keyed_value_nodup (f : α → β) :
    ∀ (v : JsValue α) (q : String), v.dotFree = true → v.distinctKeys = true →
      ((keyed f q (leavesValue v)).map Prod.fst).Nodup
  | .leaf a, q, _, _ => by simp [keyed, leavesValue]
  | .obj o, q, hd, hu => by
    have := keyed_entries_nodup f o q (by simpa [JsValue.dotFree] using hd)
      (by simpa [JsValue.distinctKeys] using hu)
    simpa [leavesValue] using this
theorem keyed_entries_nodup (f : α → β) :
    ∀ (o : JsObj α) (q : String), o.dotFree = true → o.distinctKeys = true →
      ((keyed f q (leavesEntries o)).map Prod.fst).Nodup
  | .nil, q, _, _ => by simp [keyed, leavesEntries]
  | .cons k v rest, q, hd, hu => by
    obtain ⟨-, hdv, hdr⟩ := dotFree_head hd
    obtain ⟨-, huv, hur⟩ := distinct_head hu
    rw [keyed_cons, List.map_append, List.nodup_append]
    refine ⟨keyed_value_nodup f v _ hdv huv, keyed_entries_nodup f rest q hdr hur, ?_⟩
    intro x hx hx2
    exact keyed_disjoint f q k v rest hd hu x hx hx2
end

mutual
theorem flattenValue_eq (f : α → β) :
    ∀ (v : JsValue α) (q : String) (acc : List (String × β)), q.length ≠ 0 →
      v.dotFree = true → v.distinctKeys = true →
      (∀ x ∈ (keyed f q (leavesValue v)).map Prod.fst, x ∉ acc.map Prod.fst) →
      flattenValue f v q acc = acc ++ keyed f q (leavesValue v)
  | .leaf a, q, acc, _, _, _, hfr => by
    simp only [flattenValue, keyed, leavesValue, pathKey, List.map_cons, List.map_nil]
    exact setKey_of_not_mem acc q (f a) (hfr q (by simp [keyed, leavesValue, pathKey]))
  | .obj o, q, acc, hq, hd, hu, hfr => by
    have hd2 : o.dotFree = true := by simpa [JsValue.dotFree] using hd
    have hu2 : o.distinctKeys = true := by simpa [JsValue.distinctKeys] using hu
    have h1 := flattenEntries_eq f o q [] hq hd2 hu2 (by simp)
    simp only [flattenValue, leavesValue, h1, List.nil_append]
    exact objectAssign_of_fresh _ acc (keyed_entries_nodup f o q hd2 hu2)
      (by simpa [leavesValue] using hfr)
theorem flattenEntries_eq (f : α → β) :
    ∀ (o : JsObj α) (q : String) (acc : List (String × β)), q.length ≠ 0 →
      o.dotFree = true → o.distinctKeys = true →
      (∀ x ∈ (keyed f q (leavesEntries o)).map Prod.fst, x ∉ acc.map Prod.fst) →
      flattenEntries f o q acc = acc ++ keyed f q (leavesEntries o)
  | .nil, q, acc, _, _, _, _ => by simp [flattenEntries, keyed, leavesEntries]
  | .cons k v rest, q, acc, hq, hd, hu, hfr => by
    obtain ⟨-, hdv, hdr⟩ := dotFree_head hd
    obtain ⟨-, huv, hur⟩ := distinct_head hu
    rw [keyed_cons] at hfr ⊢
    have hq2 : (q ++ "." ++ k).length ≠ 0 := by
      simp only [String.length_append]
      omega
    have h1 := flattenValue_eq f v (q ++ "." ++ k) acc hq2 hdv huv
      (fun x hx => hfr x (by simp only [List.map_append, List.mem_append]; exact Or.inl hx))
    have h2 := flattenEntries_eq f rest q (acc ++ keyed f (q ++ "." ++ k) (leavesValue v)) hq
      hdr hur (by
        intro x hx
        simp only [List.map_append, List.mem_append, not_or]
        refine ⟨hfr x (by simp only [List.map_append, List.mem_append]; exact Or.inr hx), ?_⟩
        intro hx2
        exact keyed_disjoint f q k v rest hd hu x hx2 hx)
    simp only [flattenEntries, hq, ne_eq, not_false_eq_true, if_true, h1, h2,
      List.append_assoc]
end

theorem pathKey_append (p : List String) :
    ∀ (q a : String), pathKey (q ++ a) p = q ++ String.intercalate.go a "." p := by
  induction p with
  | nil => intro q a; simp [pathKey, String.intercalate.go]
  | cons k p ih =>
    intro q a
    simp only [pathKey, String.intercalate.go]
    rw [← ih]
    simp [String.append_assoc]

theorem pathKey_cons (q k : String) (p : List String) :
    pathKey q (k :: p) = q ++ "." ++ ".".intercalate (k :: p) := by
  simp only [pathKey, String.intercalate]
  exact pathKey_append p (q ++ ".") k

theorem leavesEntries_path : ∀ (o : JsObj α) (e : List String × α), e ∈ leavesEntries o →
    ∃ k p, e.1 = k :: p
  | .nil, e, he => by simp [leavesEntries] at he
  | .cons k v rest, e, he => by
    simp only [leavesEntries, List.mem_append, List.mem_map] at he
    rcases he with ⟨e2, -, rfl⟩ | he
    · exact ⟨k, e2.1, rfl⟩
    · exact leavesEntries_path rest e he

/-- C12: for an object whose keys, at every depth, contain no dot,
`flattenObject(obj)` with the default prefix returns exactly one entry per leaf,
in the order of the leaves: its key is 'process.env.' followed by the
dot-joined path of keys leading to the leaf and its value is `JSON.stringify`
of the leaf; no key occurs twice, and an object without leaves contributes
nothing. -/
theorem flattenObject_one_entry_per_leaf (stringify : α → β) (obj : JsObj α)
    (hdot : obj.dotFree = true) (hkeys : obj.distinctKeys = true) :
    flattenObject stringify obj =
      (leavesEntries obj).map
        (fun e => ("process.env." ++ ".".intercalate e.1, stringify e.2)) ∧
    ((flattenObject stringify obj).map Prod.fst).Nodup := by
  have h := flattenEntries_eq stringify obj "process.env" [] (by decide) hdot hkeys (by simp)
  have hk : keyed stringify "process.env" (leavesEntries obj) =
      (leavesEntries obj).map
        (fun e => ("process.env." ++ ".".intercalate e.1, stringify e.2)) := by
    unfold keyed
    apply List.map_congr_left
    intro e he
    obtain ⟨k, p, hp⟩ := leavesEntries_path obj e he
    rw [hp, pathKey_cons]
    rfl
  have hfl : flattenObject stringify obj = keyed stringify "process.env" (leavesEntries obj) := by
    simpa [flattenObject] using h
  refine ⟨by rw [hfl, hk], ?_⟩
  rw [hfl]
  exact keyed_entries_nodup stringify obj "process.env" hdot hkeys

/-- Witness for C12: `{ a: 1, b: { c: 2, d: {} } }` gives the two entries
'process.env.a' and 'process.env.b.c'; the empty object `d` gives none. -/
theorem flattenObject_one_entry_per_leaf_witness :
    flattenObject (fun n : Nat => n)
      (.cons "a" (.leaf 1) (.cons "b" (.obj (.cons "c" (.leaf 2) (.cons "d" (.obj .nil) .nil)))
        .nil)) =
      [("process.env.a", 1), ("process.env.b.c", 2)] :=
  (flattenObject_one_entry_per_leaf (fun n : Nat => n)
    (.cons "a" (.leaf 1) (.cons "b" (.obj (.cons "c" (.leaf 2) (.cons "d" (.obj .nil) .nil)))
      .nil)) (by decide) (by decide)).1.trans (by decide)

end Flatten

end Webserver
